import Mathlib

/-!
Verification of the task-progress-bar plugin (src/main.ts).

The development shallowly embeds the core logic of the plugin:
the task scanner `countTasks`, the change tracker
`checkRecentTaskChanges`, the reading-view retry scheduler
`scheduleReadingViewUpdate`, the `debounce` timer semantics, the
`updateProgressBar` fetch/scan/render cycle, the content-fetch
fallback `getFileContent`, and the percentage rendering of
`ProgressBarView.updateProgress`.

Text is modelled as `List Char`.  Timestamps (`Date.now()`) are
modelled as `Nat`; JavaScript's `a - b` on timestamps is only ever
compared against positive bounds, which truncated `Nat` subtraction
reproduces.  Fallible host calls are modelled with `Except`.
-/

/-- Whitespace class of JavaScript regex `\s`, used by the `\s*` part of
the task-line regex `^\s*[-*+] \[([ xX#\-\/>])\](?!\()` in `countTasks`. -/
def isWs (c : Char) : Bool :=
  c = ' ' || c = '\t' || c = '\n' || c = '\x0b' || c = '\x0c' || c = '\r' ||
  c = '\u00A0' || c = '\u1680' || ('\u2000' ≤ c && c ≤ '\u200A') ||
  c = '\u2028' || c = '\u2029' || c = '\u202F' || c = '\u205F' ||
  c = '\u3000' || c = '\uFEFF'

/-- Line terminators recognised by the `m` (multiline) flag of the
JavaScript regex: positions after any of these characters are `^`
anchor positions. -/
def isLineTerm (c : Char) : Bool :=
  c = '\n' || c = '\r' || c = '\u2028' || c = '\u2029'

/-- Split text at the multiline anchor positions, so that each element
corresponds to one line scanned by the `gm` regex of `countTasks`. -/
def splitLines : List Char → List (List Char)
  | [] => [[]]
  | c :: rest =>
    if isLineTerm c then [] :: splitLines rest
    else
      match splitLines rest with
      | [] => [[c]]
      | l :: ls => (c :: l) :: ls

/-- List-marker characters of the regex class `[-*+]` in `countTasks`. -/
def markerChars : List Char := ['-', '*', '+']

/-- Bracket characters of the regex class `[ xX#\-\/>]` in `countTasks`. -/
def bracketChars : List Char := [' ', 'x', 'X', '#', '-', '/', '>']

/-- One-line matcher for the task-line regex
`^\s*[-*+] \[([ xX#\-\/>])\](?!\()` of `countTasks` (src/main.ts):
optional leading whitespace, a list marker, one space, a bracketed
character from the recognised class, the closing bracket not
immediately followed by `(`.  Returns the captured bracket character. -/
def matchTaskLine (l : List Char) : Option Char :=
  match l.dropWhile isWs with
  | m :: s :: b :: c :: e :: tail =>
    if m ∈ markerChars ∧ s = ' ' ∧ b = '[' ∧ e = ']' ∧ c ∈ bracketChars ∧
        tail.head? ≠ some '(' then
      some c
    else none
  | _ => none

/-- The list of captured bracket characters produced by
`content.matchAll(taskLineRegex)` in `countTasks`, one per matching line. -/
def taskMatches (content : List Char) : List Char :=
  (splitLines content).filterMap matchTaskLine

/-- Result record of `countTasks`. -/
structure TaskCount where
  total : Nat
  completed : Nat
deriving DecidableEq, Repr

/-- The matching step of `countTasks` abstracted as a fallible
computation, so the `try`/`catch` of the source can be embedded. -/
def countTasksWith (matchStep : List Char → Except Unit (List Char))
    (content : List Char) : TaskCount × Bool :=
  match matchStep content with
  | Except.ok ms =>
    ({ total := ms.length,
       completed := (ms.filter (fun checkChar => decide (checkChar ≠ ' '))).length },
     false)
  | Except.error _ => ({ total := 0, completed := 0 }, true)

/-- The actual matching step of `countTasks`: the regex scan, which is a
total computation and never fails. -/
def matchStepImpl (content : List Char) : Except Unit (List Char) :=
  Except.ok (taskMatches content)

/-- `countTasks` of src/main.ts: scan the text with the task-line regex;
`total` is the number of matches, `completed` the number of matches whose
captured bracket character is not a plain space. -/
def countTasks (content : List Char) : TaskCount :=
  (countTasksWith matchStepImpl content).1

/-- `countTasks` applied to a `String`. -/
def countTasksStr (s : String) : TaskCount :=
  countTasks s.data

example : countTasksStr "- [ ] a\n- [x] b\n- [/] c\n" = ⟨3, 2⟩ := by decide

example : countTasksStr "- [ ] a (not a checkbox) [x](link)\n" = ⟨1, 0⟩ := by decide

example : countTasksStr "- [?] a" = ⟨0, 0⟩ := by decide

example : countTasksStr "" = ⟨0, 0⟩ := by decide

/-! ### Spec-side reading of the task-line pattern -/

/-- Declarative reading of the spec's description of a matching
checklist line, amended with the recognised bracket-character set:
optional leading whitespace, one of the list markers, a single space,
a single bracketed character drawn from the recognised set, and the
closing bracket not immediately followed by an opening parenthesis. -/
def SpecLineMatch (l : List Char) (c : Char) : Prop :=
  ∃ ws m tail, l = ws ++ m :: ' ' :: '[' :: c :: ']' :: tail ∧
    (∀ x ∈ ws, isWs x = true) ∧ m ∈ markerChars ∧ c ∈ bracketChars ∧
    tail.head? ≠ some '('

/-- The claim's literal reading of the pattern: the same as
`SpecLineMatch` but with an arbitrary single bracketed character,
since the claim text does not restrict the bracket character. -/
def ClaimLineMatch (l : List Char) (c : Char) : Prop :=
  ∃ ws m tail, l = ws ++ m :: ' ' :: '[' :: c :: ']' :: tail ∧
    (∀ x ∈ ws, isWs x = true) ∧ m ∈ markerChars ∧
    tail.head? ≠ some '('

lemma marker_props (m : Char) (hm : m ∈ markerChars) :
    isWs m = false ∧ isLineTerm m = false := by
  fin_cases hm <;> exact ⟨by decide, by decide⟩

lemma dropWhile_append_ws (p : Char → Bool) (ws l : List Char)
    (h : ∀ x ∈ ws, p x = true) :
    (ws ++ l).dropWhile p = l.dropWhile p := by
  induction ws with
  | nil => simp
  | cons a t ih =>
    have ha := h a (by simp)
    simp only [List.cons_append, List.dropWhile_cons, ha, if_true]
    exact ih (fun x hx => h x (by simp [hx]))

lemma matchTaskLine_eq_some_iff (l : List Char) (c : Char) :
    matchTaskLine l = some c ↔ SpecLineMatch l c := by
  constructor
  · intro h
    unfold matchTaskLine at h
    split at h
    next m s b c' e tail heq =>
      split at h
      next hcond =>
        obtain ⟨hm, hs, hb, he, hc, htail⟩ := hcond
        have hcc : c' = c := by injection h
        subst hcc hs hb he
        refine ⟨l.takeWhile isWs, m, tail, ?_, ?_, hm, hc, htail⟩
        · have hsplit : l.takeWhile isWs ++ l.dropWhile isWs = l :=
            List.takeWhile_append_dropWhile isWs l
          rw [heq] at hsplit
          exact hsplit.symm
        · exact fun x hx => List.mem_takeWhile_imp hx
      next => exact absurd h (by simp)
    next => exact absurd h (by simp)
  · rintro ⟨ws, m, tail, rfl, hws, hm, hc, htail⟩
    have hdrop : (ws ++ m :: ' ' :: '[' :: c :: ']' :: tail).dropWhile isWs
        = m :: ' ' :: '[' :: c :: ']' :: tail := by
      rw [dropWhile_append_ws isWs ws _ hws]
      simp [List.dropWhile_cons, (marker_props m hm).1]
    unfold matchTaskLine
    rw [hdrop]
    exact if_pos ⟨hm, rfl, rfl, rfl, hc, htail⟩

lemma length_filterMap_eq_length_filter (f : List Char → Option Char)
    (ls : List (List Char)) :
    (ls.filterMap f).length = (ls.filter (fun l => (f l).isSome)).length := by
  induction ls with
  | nil => rfl
  | cons a t ih =>
    cases ha : f a <;>
      simp [List.filterMap_cons, List.filter_cons, ha, ih]

lemma length_filterMap_filter (f : List Char → Option Char) (q : Char → Bool)
    (ls : List (List Char)) :
    ((ls.filterMap f).filter q).length
      = (ls.filter (fun l => ((f l).map q).getD false)).length := by
  induction ls with
  | nil => rfl
  | cons a t ih =>
    cases ha : f a with
    | none => simp [List.filterMap_cons, List.filter_cons, ha, ih]
    | some c =>
      cases hq : q c <;>
        simp [List.filterMap_cons, List.filter_cons, ha, hq, ih]

/-- C1 (amended): for every input text, `countTasks` counts in `total`
exactly the lines matching the pattern — optional leading whitespace,
one of the list markers, a single space, a single bracketed character
drawn from the recognised set, closing bracket not immediately
followed by an opening parenthesis — and in `completed` exactly the
matching lines whose bracket character is not a plain space; on the
link-style example it returns total 1, completed 0. -/
theorem c1_countTasks_characterisation :
    (∀ l c, matchTaskLine l = some c ↔ SpecLineMatch l c) ∧
    (∀ content,
      (countTasks content).total
        = ((splitLines content).filter (fun l => (matchTaskLine l).isSome)).length ∧
      (countTasks content).completed
        = ((splitLines content).filter
            (fun l => ((matchTaskLine l).map
              (fun c => decide (c ≠ ' '))).getD false)).length) ∧
    countTasksStr "- [ ] a (not a checkbox) [x](link)\n" = ⟨1, 0⟩ := by
  refine ⟨matchTaskLine_eq_some_iff, fun content => ⟨?_, ?_⟩, by decide⟩
  · exact length_filterMap_eq_length_filter matchTaskLine (splitLines content)
  · exact length_filterMap_filter matchTaskLine _ (splitLines content)

/-- C1 counterexample to the claim as stated: the line consisting of a
marker, a space and a bracketed unrecognised character matches the
claim's literal pattern (which does not restrict the bracket
character), yet `countTasks` does not count it in `total`. -/
theorem c1_counterexample :
    ClaimLineMatch ("- [?] a".data) '?' ∧
    splitLines ("- [?] a".data) = ["- [?] a".data] ∧
    (countTasksStr "- [?] a").total = 0 := by
  refine ⟨⟨[], '-', [' ', 'a'], by decide, by decide, by decide, by decide⟩,
    by decide, by decide⟩

/-- C2: for every input text, `countTasks` returns nonnegative counts
with `completed` at most `total`. -/
theorem c2_countTasks_invariant (content : List Char) :
    0 ≤ (countTasks content).total ∧ 0 ≤ (countTasks content).completed ∧
    (countTasks content).completed ≤ (countTasks content).total := by
  refine ⟨Nat.zero_le _, Nat.zero_le _, ?_⟩
  exact List.length_filter_le _ (taskMatches content)

lemma splitLines_append_newline (l rest : List Char)
    (hl : ∀ x ∈ l, isLineTerm x = false) :
    splitLines (l ++ '\n' :: rest) = l :: splitLines rest := by
  induction l with
  | nil =>
    show splitLines ('\n' :: rest) = [] :: splitLines rest
    rw [splitLines, if_pos (show isLineTerm '\n' = true by decide)]
  | cons a t ih =>
    have ha : isLineTerm a = false := hl a (by simp)
    have ht : ∀ x ∈ t, isLineTerm x = false := fun x hx => hl x (by simp [hx])
    show splitLines (a :: (t ++ '\n' :: rest)) = (a :: t) :: splitLines rest
    rw [splitLines, ha, ih ht]
    simp

lemma countTasks_cons_line (l rest : List Char)
    (hl : ∀ x ∈ l, isLineTerm x = false) (hm : matchTaskLine l = none) :
    countTasks (l ++ '\n' :: rest) = countTasks rest := by
  have h1 : taskMatches (l ++ '\n' :: rest) = taskMatches rest := by
    unfold taskMatches
    rw [splitLines_append_newline l rest hl, List.filterMap_cons, hm]
  simp [countTasks, countTasksWith, matchStepImpl, h1]

/-- C10: a checklist-like line whose bracket character is outside the
recognised set is not matched by the task-line regex at all, so it
contributes to neither `total` nor `completed` of `countTasks`; in
particular the concrete text consisting only of such a line yields
zero counts. -/
theorem c10_unrecognised_bracket_not_counted
    (ws tail rest : List Char) (m c : Char)
    (hws : ∀ x ∈ ws, isWs x = true ∧ isLineTerm x = false)
    (htail : ∀ x ∈ tail, isLineTerm x = false)
    (hm : m ∈ markerChars) (hc : c ∉ bracketChars)
    (hcterm : isLineTerm c = false) :
    matchTaskLine (ws ++ m :: ' ' :: '[' :: c :: ']' :: tail) = none ∧
    countTasks ((ws ++ m :: ' ' :: '[' :: c :: ']' :: tail) ++ '\n' :: rest)
      = countTasks rest ∧
    countTasksStr "- [?] task" = ⟨0, 0⟩ := by
  have hdrop : (ws ++ m :: ' ' :: '[' :: c :: ']' :: tail).dropWhile isWs
      = m :: ' ' :: '[' :: c :: ']' :: tail := by
    rw [dropWhile_append_ws isWs ws _ (fun x hx => (hws x hx).1)]
    simp [List.dropWhile_cons, (marker_props m hm).1]
  have hnone : matchTaskLine (ws ++ m :: ' ' :: '[' :: c :: ']' :: tail) = none := by
    unfold matchTaskLine
    rw [hdrop]
    exact if_neg (fun hcond => hc hcond.2.2.2.2.1)
  refine ⟨hnone, ?_, by decide⟩
  refine countTasks_cons_line _ rest ?_ hnone
  intro x hx
  simp only [List.mem_append, List.mem_cons] at hx
  rcases hx with hx | hx | hx | hx | hx | hx | hx
  · exact (hws x hx).2
  · exact hx ▸ (marker_props m hm).2
  · exact hx ▸ (by decide)
  · exact hx ▸ (by decide)
  · exact hx ▸ hcterm
  · exact hx ▸ (by decide)
  · exact htail x hx

/-- Witness for C10 at a concrete instance: the line consisting of a
question-mark bracket followed by one completed task line counts only
the latter. -/
theorem c10_witness :
    matchTaskLine ([] ++ '-' :: ' ' :: '[' :: '?' :: ']' :: [' ', 't']) = none ∧
    countTasks (([] ++ '-' :: ' ' :: '[' :: '?' :: ']' :: [' ', 't'])
        ++ '\n' :: ['-', ' ', '[', 'x', ']'])
      = countTasks ['-', ' ', '[', 'x', ']'] ∧
    countTasksStr "- [?] task" = ⟨0, 0⟩ :=
  c10_unrecognised_bracket_not_counted [] [' ', 't'] ['-', ' ', '[', 'x', ']']
    '-' '?' (by decide) (by decide) (by decide) (by decide) (by decide)

/-! ### Progress View rendering (`ProgressBarView.updateProgress`) -/

/-- Fuel-driven base-2 logarithm; `natLog2 n` is the index of the
highest set bit of a positive `n`. -/
def log2Fuel : Nat → Nat → Nat
  | 0, _ => 0
  | fuel + 1, n => if n < 2 then 0 else log2Fuel fuel (n / 2) + 1

/-- Base-2 logarithm, rounded down. -/
def natLog2 (n : Nat) : Nat := log2Fuel n n

/-- Whether `2 ^ E ≤ a / b` for naturals `a`, `b` with `b` positive. -/
def twoPowLE (E : ℤ) (a b : ℕ) : Bool :=
  if 0 ≤ E then decide (b * 2 ^ E.toNat ≤ a) else decide (b ≤ a * 2 ^ (-E).toNat)

/-- The binary exponent of a positive rational `a / b`: the unique `E`
with `2 ^ E ≤ a / b < 2 ^ (E + 1)`. -/
def floorLog2Pos (a b : ℕ) : ℤ :=
  let E0 : ℤ := (natLog2 a : ℤ) - (natLog2 b : ℤ)
  if twoPowLE E0 a b then E0 else E0 - 1

/-- Integer rounding of `num / den` to nearest, ties to even — the
IEEE 754 default rounding applied to the scaled significand. -/
def rnEvenDiv (num den : ℕ) : ℕ :=
  let n := num / den
  let r := num % den
  if 2 * r < den then n
  else if den < 2 * r then n + 1
  else if n % 2 = 0 then n else n + 1

/-- The binary64 (IEEE 754 double) value nearest to `a / b`, as a pair
`(m, e)` denoting `m * 2 ^ (e - 52)` with `2 ^ 52 ≤ m ≤ 2 ^ 53` for
positive `a`, and `(0, 0)` for `a = 0`.  The exponent is unbounded,
which coincides with binary64 whenever no overflow or underflow
occurs — the case for every count the scanner can produce (JavaScript
array lengths are below `2 ^ 32`, far inside the normal range).
Meaningful only for `b ≠ 0`; the caller guards `totalTasks === 0`. -/
def fl64nd (a b : ℕ) : ℕ × ℤ :=
  if a = 0 then (0, 0)
  else
    let E := floorLog2Pos a b
    let shift : ℤ := 52 - E
    let num := a * 2 ^ shift.toNat
    let den := b * 2 ^ (-shift).toNat
    (rnEvenDiv num den, E)

/-- Correctly rounded binary64 product of a double with the exact
constant 100: scaling by `2 ^ (e - 52)` is exact, so only the integer
product `m * 100` is re-rounded to 53 significant bits. -/
def mul100 (f : ℕ × ℤ) : ℕ × ℤ :=
  let g := fl64nd (f.1 * 100) 1
  (g.1, g.2 + f.2 - 52)

/-- The exact rational value of the double `(m, e)`. -/
def dblVal (f : ℕ × ℤ) : ℚ := (f.1 : ℚ) * (2 : ℚ) ^ (f.2 - 52)

/-- `Math.round` applied to the exact value of the double `(m, e)`: the
nearest integer, ties toward positive infinity, that is
`⌊value + 1/2⌋`, computed in integer arithmetic. -/
def roundPair (f : ℕ × ℤ) : ℤ :=
  if 52 ≤ f.2 then (f.1 : ℤ) * 2 ^ (f.2 - 52).toNat
  else ((2 * f.1 + 2 ^ (52 - f.2).toNat) / 2 ^ ((52 - f.2).toNat + 1) : ℕ)

/-- The integer percentage computed by `ProgressBarView.updateProgress`
(src/main.ts line 875): `Math.round((completedTasks / totalTasks) * 100)`
evaluated in binary64 — the correctly rounded double quotient, the
correctly rounded product with 100, then `Math.round` of the result's
exact value. -/
def percentOf (totalTasks completedTasks : Nat) : ℤ :=
  roundPair (mul100 (fl64nd completedTasks totalTasks))

/-- What the progress container renders in
`ProgressBarView.updateProgress`: the no-tasks message when
`totalTasks === 0`, otherwise a bar and label with the rounded
percentage. -/
inductive ProgressRender where
  | noTasksInfo
  | bar (percent : ℤ)
deriving DecidableEq, Repr

/-- Rendering decision of `ProgressBarView.updateProgress`
(src/main.ts): early-return with the no-tasks message when the file
has no tasks, otherwise render a bar `percent`% wide with a
`percent`% label. -/
def updateProgress (totalTasks completedTasks : Nat) : ProgressRender :=
  if totalTasks = 0 then ProgressRender.noTasksInfo
  else ProgressRender.bar (percentOf totalTasks completedTasks)

lemma floor_natCast_div_natCast (a b : ℕ) :
    ⌊((a : ℚ)) / ((b : ℚ))⌋ = ((a / b : ℕ) : ℤ) := by
  have h1 : (⌊((a : ℚ)) / ((b : ℚ))⌋₊ : ℤ) = ⌊((a : ℚ)) / ((b : ℚ))⌋ :=
    Int.natCast_floor_eq_floor (by positivity)
  rw [← h1, Nat.floor_div_eq_div]

lemma roundPair_eq_round_val (f : ℕ × ℤ) : roundPair f = round (dblVal f) := by
  obtain ⟨m, e⟩ := f
  unfold roundPair dblVal
  by_cases h : 52 ≤ e
  · rw [if_pos h]
    have hp : (2 : ℚ) ^ (e - 52) = ((2 ^ (e - 52).toNat : ℕ) : ℚ) := by
      have h52 : e - 52 = (((e - 52).toNat : ℕ) : ℤ) := by omega
      rw [h52, zpow_natCast]
      norm_cast
    rw [hp, ← Nat.cast_mul, round_natCast]
    push_cast
    ring
  · rw [if_neg h]
    have hk : e - 52 = -(((52 - e).toNat : ℕ) : ℤ) := by omega
    have hp : (2 : ℚ) ^ (e - 52) = (((2 ^ (52 - e).toNat : ℕ) : ℚ))⁻¹ := by
      rw [hk, zpow_neg, zpow_natCast]
      norm_cast
    rw [hp, round_eq]
    have hv : (m : ℚ) * (((2 ^ (52 - e).toNat : ℕ) : ℚ))⁻¹ + 1 / 2
        = ((2 * m + 2 ^ (52 - e).toNat : ℕ) : ℚ)
          / ((2 ^ ((52 - e).toNat + 1) : ℕ) : ℚ) := by
      push_cast
      field_simp
      ring
    rw [hv, floor_natCast_div_natCast]

/-- C3 counterexample: at total 200, completed 57 the binary64
evaluation of `(57/200)*100` is `28.499999999999996`, slightly below
`28.5`, so the program renders 28%, while the claim's exact-rational
`round(57/200*100) = round(28.5)` is 29 — the view does not show the
exact-rational rounding. -/
theorem c3_counterexample :
    updateProgress 200 57 = ProgressRender.bar 28 ∧
    round (((57 : ℕ) : ℚ) / ((200 : ℕ) : ℚ) * 100) = 29 ∧
    updateProgress 200 57
      ≠ ProgressRender.bar (round (((57 : ℕ) : ℚ) / ((200 : ℕ) : ℚ) * 100)) := by
  have h28 : updateProgress 200 57 = ProgressRender.bar 28 := by
    unfold updateProgress
    rw [if_neg (by decide : ¬ (200 : ℕ) = 0)]
    exact congrArg ProgressRender.bar (by decide)
  have h29 : round (((57 : ℕ) : ℚ) / ((200 : ℕ) : ℚ) * 100) = 29 := by
    have hv : ((57 : ℕ) : ℚ) / ((200 : ℕ) : ℚ) * 100 + 1 / 2 = ((29 : ℤ) : ℚ) := by
      norm_num
    rw [round_eq, hv, Int.floor_intCast]
  refine ⟨h28, h29, ?_⟩
  rw [h28, h29]
  decide

/-- C3 (amended): when `totalTasks > 0` the view renders a bar whose
percentage is the integer `Math.round(x)` — nearest, ties toward
positive infinity — where `x` is the binary64 evaluation of
`(completed/total)*100` (correctly rounded quotient, then correctly
rounded product); for total 3 and completed 1 the rendered percentage
is the integer 33, not 33.33. -/
theorem c3_percent_float (totalTasks completedTasks : Nat)
    (h : 0 < totalTasks) :
    updateProgress totalTasks completedTasks
      = ProgressRender.bar (percentOf totalTasks completedTasks) ∧
    percentOf totalTasks completedTasks
      = round (dblVal (mul100 (fl64nd completedTasks totalTasks))) ∧
    updateProgress 3 1 = ProgressRender.bar 33 := by
  refine ⟨?_, roundPair_eq_round_val _, ?_⟩
  · unfold updateProgress
    rw [if_neg h.ne']
  · unfold updateProgress
    rw [if_neg (by decide : ¬ (3 : ℕ) = 0)]
    exact congrArg ProgressRender.bar (by decide)

/-- Witness for C3 at total 3, completed 1. -/
theorem c3_float_witness :
    0 < 3 ∧
    (updateProgress 3 1 = ProgressRender.bar (percentOf 3 1) ∧
     percentOf 3 1 = round (dblVal (mul100 (fl64nd 1 3))) ∧
     updateProgress 3 1 = ProgressRender.bar 33) :=
  ⟨Nat.succ_pos 2, c3_percent_float 3 1 (Nat.succ_pos 2)⟩


/-! ### Change Tracker (`checkRecentTaskChanges`) -/

/-- JavaScript `needle.isPrefixOf(haystack)`-style check used to model
`taskKey.startsWith(filePath + ":")`. -/
def startsWithList : List Char → List Char → Bool
  | [], _ => true
  | _ :: _, [] => false
  | a :: as, b :: bs => a = b && startsWithList as bs

/-- JavaScript `haystack.includes(needle)` substring containment, used
to model `fileContent.includes(taskContent)`. -/
def containsSub (needle : List Char) : List Char → Bool
  | [] => needle.isEmpty
  | c :: rest => startsWithList needle (c :: rest) || containsSub needle rest

/-- `checkRecentTaskChanges` of src/main.ts, with the
`recentlyChangedTasks` map modelled as an association list of
`(taskKey, timestamp)` entries and `Date.now()` passed in as `now`.
Iterates the entries: an entry older than 10000 ms is deleted and
skipped; an entry whose key starts with `filePath + ":"` and whose
task text is not contained in `fileContent` sets the stale flag.
Returns the flag together with the surviving entries. -/
def checkRecentTaskChanges (now : Nat) (filePath fileContent : List Char) :
    List (List Char × Nat) → Bool × List (List Char × Nat)
  | [] => (false, [])
  | (taskKey, timestamp) :: rest =>
    let r := checkRecentTaskChanges now filePath fileContent rest
    if 10000 < now - timestamp then r
    else if startsWithList (filePath ++ [':']) taskKey then
      let taskContent := taskKey.drop (filePath.length + 1)
      if containsSub taskContent fileContent then (r.1, (taskKey, timestamp) :: r.2)
      else (true, (taskKey, timestamp) :: r.2)
    else (r.1, (taskKey, timestamp) :: r.2)

/-- The claim's reading of `hasUnreflectedChange`, with "non-expired"
taken literally as "recorded less than 10000 ms ago". -/
def HasUnreflectedChangeClaim (now : Nat) (filePath fileContent : List Char)
    (m : List (List Char × Nat)) : Prop :=
  ∃ p ∈ m, now - p.2 < 10000 ∧
    startsWithList (filePath ++ [':']) p.1 = true ∧
    containsSub (p.1.drop (filePath.length + 1)) fileContent = false

/-- C4 (amended: an entry is non-expired when it was recorded at most
10000 ms ago; only strictly older entries are expired): the check
reports a stale change exactly when some non-expired entry has a key
prefixed by the file path plus a colon and a stored text not contained
in the content, and the surviving entries are exactly the non-expired
ones. -/
theorem c4_checkRecentTaskChanges_spec (now : Nat)
    (filePath fileContent : List Char) (m : List (List Char × Nat)) :
    ((checkRecentTaskChanges now filePath fileContent m).1 = true ↔
      ∃ p ∈ m, now - p.2 ≤ 10000 ∧
        startsWithList (filePath ++ [':']) p.1 = true ∧
        containsSub (p.1.drop (filePath.length + 1)) fileContent = false) ∧
    (checkRecentTaskChanges now filePath fileContent m).2
      = m.filter (fun p => decide (now - p.2 ≤ 10000)) := by
  induction m with
  | nil => exact ⟨by simp [checkRecentTaskChanges], by simp [checkRecentTaskChanges]⟩
  | cons hd tl ih =>
    obtain ⟨key, ts⟩ := hd
    obtain ⟨ih1, ih2⟩ := ih
    constructor
    · show (checkRecentTaskChanges now filePath fileContent ((key, ts) :: tl)).1 = true ↔ _
      rw [checkRecentTaskChanges]
      by_cases hexp : 10000 < now - ts
      · rw [if_pos hexp]
        rw [ih1]
        constructor
        · rintro ⟨p, hp, h⟩
          exact ⟨p, List.mem_cons_of_mem _ hp, h⟩
        · rintro ⟨p, hp, h⟩
          rcases List.mem_cons.mp hp with rfl | hp
          · exact absurd h.1 (by omega)
          · exact ⟨p, hp, h⟩
      · rw [if_neg hexp]
        by_cases hpref : startsWithList (filePath ++ [':']) key = true
        · rw [if_pos hpref]
          by_cases hcont :
              containsSub (key.drop (filePath.length + 1)) fileContent = true
          · rw [if_pos hcont]
            show (checkRecentTaskChanges now filePath fileContent tl).1 = true ↔ _
            rw [ih1]
            constructor
            · rintro ⟨p, hp, h⟩
              exact ⟨p, List.mem_cons_of_mem _ hp, h⟩
            · rintro ⟨p, hp, h⟩
              rcases List.mem_cons.mp hp with rfl | hp
              · rw [hcont] at h
                exact absurd h.2.2 (by simp)
              · exact ⟨p, hp, h⟩
          · rw [if_neg hcont]
            simp only [true_iff]
            exact ⟨(key, ts), List.mem_cons_self _ _,
              by omega, hpref, by simpa using hcont⟩
        · rw [if_neg hpref]
          show (checkRecentTaskChanges now filePath fileContent tl).1 = true ↔ _
          rw [ih1]
          constructor
          · rintro ⟨p, hp, h⟩
            exact ⟨p, List.mem_cons_of_mem _ hp, h⟩
          · rintro ⟨p, hp, h⟩
            rcases List.mem_cons.mp hp with rfl | hp
            · exact absurd h.2.1 hpref
            · exact ⟨p, hp, h⟩
    · show (checkRecentTaskChanges now filePath fileContent ((key, ts) :: tl)).2 = _
      rw [checkRecentTaskChanges, List.filter_cons]
      by_cases hexp : 10000 < now - ts
      · rw [if_pos hexp]
        have : decide (now - ts ≤ 10000) = false := by
          simp only [decide_eq_false_iff_not]
          omega
        rw [this]
        simpa using ih2
      · rw [if_neg hexp]
        have hkeep : decide (now - ts ≤ 10000) = true := by
          simp only [decide_eq_true_eq]
          omega
        rw [hkeep]
        by_cases hpref : startsWithList (filePath ++ [':']) key = true
        · rw [if_pos hpref]
          by_cases hcont :
              containsSub (key.drop (filePath.length + 1)) fileContent = true
          · rw [if_pos hcont]
            simpa using ih2
          · rw [if_neg hcont]
            simpa using ih2
        · rw [if_neg hpref]
          simpa using ih2

/-- C4 counterexample to the claim as stated: an entry recorded exactly
10000 ms ago is not expired in the code (the purge condition is strictly
greater than 10000), so the check reports true although no entry was
recorded less than 10000 ms ago. -/
theorem c4_counterexample :
    (checkRecentTaskChanges 10000 ['f'] [] [(['f', ':', 't'], 0)]).1 = true ∧
    ¬ HasUnreflectedChangeClaim 10000 ['f'] [] [(['f', ':', 't'], 0)] := by
  constructor
  · decide
  · intro h
    obtain ⟨p, hp, hlt, _, _⟩ := h
    rcases List.mem_singleton.mp hp with rfl
    omega

/-! ### Reading-view retry loop (`scheduleReadingViewUpdate`) -/

/-- The `maxRetryCount` field of the plugin (src/main.ts line 62). -/
def maxRetryCount : Nat := 5

/-- `scheduleReadingViewUpdate` of src/main.ts, modelled as a pure
recursion.  `update attempt` is the outcome of the `attempt`-th call to
`updateProgressBarForReadingView`.  The function returns the number of
update attempts performed and the list of backoff delays
(`500 + retryCount * 200` milliseconds) waited between attempts.  If
the retry count has already reached the maximum, it stops (resetting
the counter) without attempting; otherwise it increments the counter,
attempts, and on failure with retries remaining waits the backoff and
re-enters. -/
def scheduleReadingViewUpdate (update : Nat → Bool) (maxRetry retryCount : Nat) :
    Nat × List Nat :=
  if h : maxRetry ≤ retryCount then (0, [])
  else if update (retryCount + 1) = false ∧ retryCount + 1 < maxRetry then
    ((scheduleReadingViewUpdate update maxRetry (retryCount + 1)).1 + 1,
      (500 + (retryCount + 1) * 200)
        :: (scheduleReadingViewUpdate update maxRetry (retryCount + 1)).2)
  else (1, [])
termination_by maxRetry - retryCount
decreasing_by omega

lemma schedule_spec (u : Nat → Bool) (maxRetry : Nat) :
    ∀ fuel retryCount, maxRetry - retryCount ≤ fuel →
      (scheduleReadingViewUpdate u maxRetry retryCount).1 ≤ maxRetry - retryCount ∧
      (retryCount < maxRetry → 1 ≤ (scheduleReadingViewUpdate u maxRetry retryCount).1) ∧
      (scheduleReadingViewUpdate u maxRetry retryCount).2
        = (List.range ((scheduleReadingViewUpdate u maxRetry retryCount).1 - 1)).map
            (fun i => 500 + (retryCount + 1 + i) * 200) := by
  intro fuel
  induction fuel with
  | zero =>
    intro rc hrc
    have h : maxRetry ≤ rc := by omega
    rw [scheduleReadingViewUpdate, dif_pos h]
    exact ⟨by omega, fun hlt => absurd hlt (by omega), by simp⟩
  | succ k ih =>
    intro rc hrc
    by_cases h : maxRetry ≤ rc
    · rw [scheduleReadingViewUpdate, dif_pos h]
      exact ⟨by omega, fun hlt => absurd hlt (by omega), by simp⟩
    · rw [scheduleReadingViewUpdate, dif_neg h]
      by_cases hcond : u (rc + 1) = false ∧ rc + 1 < maxRetry
      · rw [if_pos hcond]
        obtain ⟨h1, h2, h3⟩ := ih (rc + 1) (by omega)
        have h1le : 1 ≤ (scheduleReadingViewUpdate u maxRetry (rc + 1)).1 :=
          h2 hcond.2
        refine ⟨?_, ?_, ?_⟩
        · show (scheduleReadingViewUpdate u maxRetry (rc + 1)).1 + 1 ≤ maxRetry - rc
          omega
        · intro _
          show 1 ≤ (scheduleReadingViewUpdate u maxRetry (rc + 1)).1 + 1
          omega
        · obtain ⟨n, hn⟩ :
              ∃ n, (scheduleReadingViewUpdate u maxRetry (rc + 1)).1 = n + 1 :=
            ⟨(scheduleReadingViewUpdate u maxRetry (rc + 1)).1 - 1, by omega⟩
          show (500 + (rc + 1) * 200)
                :: (scheduleReadingViewUpdate u maxRetry (rc + 1)).2
              = (List.range
                    ((scheduleReadingViewUpdate u maxRetry (rc + 1)).1 + 1 - 1)).map
                  (fun i => 500 + (rc + 1 + i) * 200)
          rw [h3, hn]
          simp only [Nat.add_sub_cancel, List.range_succ_eq_map, List.map_cons,
            List.map_map]
          refine List.cons_eq_cons.mpr ⟨by omega, List.map_congr_left ?_⟩
          intro i _
          simp only [Function.comp_apply]
          omega
      · rw [if_neg hcond]
        exact ⟨by omega, fun _ => le_refl 1, by simp⟩

/-- C5: started with a reset retry counter, the reading-view retry loop
performs at most `maxRetryCount` (5) attempts, the backoff waited
before the `(i+2)`-th attempt is `500 + (i+1)*200` ms (a base delay
plus the attempt count times an increment, strictly increasing), and
once the counter has reached the maximum the loop stops without
attempting; the recursion is total, so it never loops forever. -/
theorem c5_reading_retry_bounded (update : Nat → Bool) :
    (scheduleReadingViewUpdate update maxRetryCount 0).1 ≤ maxRetryCount ∧
    (scheduleReadingViewUpdate update maxRetryCount 0).2
      = (List.range ((scheduleReadingViewUpdate update maxRetryCount 0).1 - 1)).map
          (fun i => 500 + (i + 1) * 200) ∧
    scheduleReadingViewUpdate update maxRetryCount maxRetryCount = (0, []) := by
  obtain ⟨h1, -, h3⟩ := schedule_spec update maxRetryCount maxRetryCount 0 (by omega)
  refine ⟨by simpa using h1, ?_, ?_⟩
  · rw [h3]
    exact List.map_congr_left (fun i _ => by omega)
  · rw [scheduleReadingViewUpdate, dif_pos (le_refl maxRetryCount)]

/-! ### Debounce (`debounce`, `updateProgressBar = debounce(..., 50)`) -/

/-- The debounce wait of `updateProgressBar` (src/main.ts line 655). -/
def updateProgressBarWait : Nat := 50

/-- Timer semantics of `debounce` (src/main.ts): each call at time `t`
clears any pending timer and arms a new one for `t + wait`; a pending
timer fires only if no later call arrives before its fire time.  Given
the nondecreasing list of call times, returns the list of fire times of
the wrapped function. -/
def debounceFires (wait : Nat) : List Nat → List Nat
  | [] => []
  | t :: rest =>
    match rest with
    | [] => [t + wait]
    | u :: _ =>
      if u < t + wait then debounceFires wait rest
      else (t + wait) :: debounceFires wait rest

/-- C6: two calls to the debounced `updateProgressBar` in rapid
succession (the second arriving before the first timer fires) produce
exactly one fetch/scan/render cycle, at the time scheduled by the most
recent call — the second call cancels the first timer
(last-scheduler-wins). -/
theorem c6_debounce_last_wins (t1 t2 : Nat)
    (h : t2 < t1 + updateProgressBarWait) :
    debounceFires updateProgressBarWait [t1, t2]
      = [t2 + updateProgressBarWait] ∧
    (debounceFires updateProgressBarWait [t1, t2]).length = 1 := by
  have hstep : debounceFires updateProgressBarWait [t1, t2]
      = if t2 < t1 + updateProgressBarWait then
          debounceFires updateProgressBarWait [t2]
        else (t1 + updateProgressBarWait) :: debounceFires updateProgressBarWait [t2] :=
    rfl
  rw [hstep, if_pos h]
  exact ⟨rfl, rfl⟩

/-- Witness for C6: calls at 0 ms and 10 ms with the 50 ms wait fire
once, at 60 ms. -/
theorem c6_witness :
    10 < 0 + updateProgressBarWait ∧
    (debounceFires updateProgressBarWait [0, 10] = [10 + updateProgressBarWait] ∧
     (debounceFires updateProgressBarWait [0, 10]).length = 1) :=
  ⟨by decide, c6_debounce_last_wins 0 10 (by decide)⟩

/-! ### The fetch/scan/render cycle (`updateProgressBar` body) and the
Progress View states -/

/-- Outcome of one fetch/scan/render cycle towards the Progress View:
the cycle can return without touching the view (`skipped`), instruct
the view to show the no-file message (`noFileShown`, the
`showNoFileMessage` call of `ProgressBarView`), or update all progress
views with the counts (`rendered`). -/
inductive CycleResult where
  | skipped
  | noFileShown
  | rendered (total completed : Nat)
deriving DecidableEq, Repr

/-- `getFileContent` of src/main.ts: in edit mode return the live
editor buffer; otherwise (in reading view or any other mode alike)
read the file directly, and on a read failure fall back to the cached
read, whose own outcome — success or failure — is returned as is. -/
def getFileContent (editorValue : Option (List Char)) (isReadingView : Bool)
    (readResult cachedReadResult : Except Unit (List Char)) :
    Except Unit (List Char) :=
  match editorValue with
  | some v => Except.ok v
  | none =>
    match isReadingView, readResult with
    | _, Except.ok s => Except.ok s
    | _, Except.error _ => cachedReadResult

/-- The body of the debounced `updateProgressBar` (src/main.ts): skip
when unforced and called within 300 ms of the last update, skip when an
update is in progress, return early when there is no active file or no
progress-bar leaf, catch a content-fetch failure (log only), otherwise
count tasks in the content and update the views. -/
def updateProgressBar (force : Bool) (now lastUpdateTime : Nat)
    (updateInProgress : Bool) (activeFile : Option (List Char))
    (leafCount : Nat) (contentFetch : Except Unit (List Char)) : CycleResult :=
  if force = false ∧ now - lastUpdateTime < 300 then CycleResult.skipped
  else if updateInProgress = true then CycleResult.skipped
  else
    match activeFile with
    | none => CycleResult.skipped
    | some _ =>
      if leafCount = 0 then CycleResult.skipped
      else
        match contentFetch with
        | Except.error _ => CycleResult.skipped
        | Except.ok content =>
          CycleResult.rendered (countTasks content).total
            (countTasks content).completed

/-- What `ProgressBarView.onOpen` renders when the view is created:
the no-file message (`showNoFileMessage`). -/
def onOpenInitialRender : CycleResult := CycleResult.noFileShown

/-- C7 counterexample: with no active file the fetch/scan/render cycle
returns early without instructing the Progress View, so it does not
show the no-file state. -/
theorem c7_counterexample :
    updateProgressBar true 1000 0 false none 1 (Except.ok [])
      = CycleResult.skipped ∧
    updateProgressBar true 1000 0 false none 1 (Except.ok [])
      ≠ CycleResult.noFileShown := by
  exact ⟨rfl, by decide⟩

/-- C7 (amended): when no document is open the fetch/scan/render cycle
exits without updating the Progress View at all (the view keeps its
previous state); the empty/no-file state is only rendered when the view
itself is opened. -/
theorem c7_no_file_skips (force : Bool) (now lastUpdateTime : Nat)
    (updateInProgress : Bool) (leafCount : Nat)
    (contentFetch : Except Unit (List Char)) :
    updateProgressBar force now lastUpdateTime updateInProgress none
        leafCount contentFetch = CycleResult.skipped ∧
    onOpenInitialRender = CycleResult.noFileShown := by
  refine ⟨?_, rfl⟩
  unfold updateProgressBar
  by_cases h1 : force = false ∧ now - lastUpdateTime < 300
  · rw [if_pos h1]
  · rw [if_neg h1]
    by_cases h2 : updateInProgress = true
    · rw [if_pos h2]
    · rw [if_neg h2]

/-- C8: the scan of `countTasks` is wrapped in a `try`/`catch`: with
the actual matching step the scan always succeeds and nothing is
logged, and for any matching step that fails, `countTasks` returns
zero counts and reports the failure to the logger instead of
propagating the error (the embedding is total, so no exception ever
escapes). -/
theorem c8_scan_failure_degrades :
    (∀ content, countTasksWith matchStepImpl content = (countTasks content, false)) ∧
    (∀ matchStep content err, matchStep content = Except.error err →
      countTasksWith matchStep content = ({ total := 0, completed := 0 }, true)) := by
  constructor
  · intro content
    rfl
  · intro matchStep content err h
    unfold countTasksWith
    rw [h]

/-- Witness for C8: a matching step that always fails yields zero
counts and a log report. -/
theorem c8_witness :
    countTasksWith (fun _ => Except.error ()) []
      = ({ total := 0, completed := 0 }, true) :=
  c8_scan_failure_degrades.2 (fun _ => Except.error ()) [] () rfl

/-- C9 counterexample: when there is no editor buffer and both the
direct read and the cached read fail, `getFileContent` propagates the
failure — there is no "last cached content" tier and no final
empty-string fallback. -/
theorem c9_counterexample :
    getFileContent none false (Except.error ()) (Except.error ())
      = Except.error () ∧
    getFileContent none false (Except.error ()) (Except.error ())
      ≠ Except.ok [] := by
  refine ⟨rfl, fun h => ?_⟩
  exact Except.noConfusion h

/-- C9 (amended): the content fetch falls back in order — live editor
buffer when an editor is open, then the direct read, then the
best-effort cached read, whose failure propagates; the propagated
failure is never fatal to the cycle, which catches it and returns
without rendering. -/
theorem c9_fallback_chain (v s : List Char) (b : Bool)
    (c : Except Unit (List Char)) :
    (∀ r, getFileContent (some v) b r c = Except.ok v) ∧
    getFileContent none b (Except.ok s) c = Except.ok s ∧
    getFileContent none b (Except.error ()) c = c ∧
    (∀ force now lastUpdateTime updateInProgress activeFile leafCount,
      updateProgressBar force now lastUpdateTime updateInProgress activeFile
          leafCount (Except.error ()) = CycleResult.skipped) := by
  refine ⟨fun r => rfl, rfl, rfl, ?_⟩
  intro force now lut uip file leaves
  unfold updateProgressBar
  by_cases h1 : force = false ∧ now - lut < 300
  · rw [if_pos h1]
  · rw [if_neg h1]
    by_cases h2 : uip = true
    · rw [if_pos h2]
    · rw [if_neg h2]
      cases file with
      | none => rfl
      | some f =>
        by_cases h3 : leaves = 0
        · show (if leaves = 0 then CycleResult.skipped else _) = CycleResult.skipped
          rw [if_pos h3]
        · show (if leaves = 0 then CycleResult.skipped else _) = CycleResult.skipped
          rw [if_neg h3]
